import Mathlib

/-!
Verification of the bmfont binary decoder (package bmfont, file bmfont.go).

The Go source is shallowly embedded: bytes are `Fin 256`, byte buffers are
lists of bytes, Go slices are modelled with `List.drop`/`List.take` under the
standard assumption that a slice's capacity equals its length, and every
fallible Go computation returns a `GoResult` whose `panic` constructor models
a Go runtime panic (out-of-bounds index or slice).  The Windows-1252 decoder
of golang.org/x/text (charmap.Windows1252, following the WHATWG
index-windows-1252 table) is embedded as a total byte-to-code-point map, and
its `Transform` method as a greedy encoder into a bounded destination buffer,
which is exactly how a charmap decoder behaves: it never rejects input and
fails only with a short-destination error.
-/

namespace BMFont

/-- Bytes of the input buffer, as in Go a `byte` is an 8-bit value. -/
abbrev Byte := Fin 256

/-- Byte buffers (`[]byte` in Go, with capacity equal to length). -/
abbrev Bytes := List Byte

/-- The `fmt.Errorf` call sites of bmfont.go, one constructor per site,
carrying the formatted values the message interpolates. -/
inductive GoError where
  /-- line 154: `Invalid identifier %v` with `b[:3]`. -/
  | invalidIdentifier (magic : List (Fin 256)) : GoError
  /-- line 158: `Unsupported version %v` with `b[4]`. -/
  | unsupportedVersion (v : Fin 256) : GoError
  /-- line 66: `Error parsing info section font name: %v`. -/
  | infoFontName : GoError
  /-- line 171: `Error parsing info block: %v` wrapping a lower error. -/
  | infoBlock (e : GoError) : GoError
  /-- line 176: `Error parsing common block: %v` wrapping a lower error. -/
  | commonBlock (e : GoError) : GoError
  /-- line 181: `Error parsing pages text: %v`. -/
  | pagesText : GoError
  /-- line 191: `Error parsing char %v: %v` with the record index. -/
  | charAt (i : Nat) (e : GoError) : GoError
  /-- line 199: `Error parsing kerning pair %v: %v` with the record index. -/
  | kerningAt (i : Nat) (e : GoError) : GoError
deriving DecidableEq, Repr

/-- Result of a fallible Go computation: a value, an error created by
`fmt.Errorf`, or a runtime panic (out-of-bounds index or slice). -/
inductive GoResult (α : Type) where
  | ok : α → GoResult α
  | error : GoError → GoResult α
  | panic : GoResult α
deriving DecidableEq, Repr

end BMFont

namespace BMFont

/-- Read the byte at index `i`; call sites only use it where the Go code has
already established the index is in bounds, so the default value is inert. -/
def byteAt (b : Bytes) (i : Nat) : Byte := b.getD i 0

/-- Go slice expression `b[lo:hi]` with capacity = length: panics unless
`lo ≤ hi ≤ len(b)`. -/
def goSlice (b : Bytes) (lo hi : Nat) : GoResult Bytes :=
  if lo ≤ hi ∧ hi ≤ b.length then .ok ((b.drop lo).take (hi - lo)) else .panic

/-- Value of `binary.LittleEndian.Uint16` on two bytes. -/
def le16 (b0 b1 : Byte) : Nat := b0.val + 256 * b1.val

/-- Value of `binary.LittleEndian.Uint32` on four bytes. -/
def le32 (b0 b1 b2 b3 : Byte) : Nat :=
  b0.val + 256 * b1.val + 65536 * b2.val + 16777216 * b3.val

/-- Go conversion `int16(x)` of a `uint16` value: reinterpret the unsigned
bit pattern as two's-complement. -/
def toInt16 (n : Nat) : Int := if n < 32768 then (n : Int) else (n : Int) - 65536

/-- Unicode code point assigned to a byte by charmap.Windows1252 (the WHATWG
index-windows-1252 table): bytes below 0x80 and from 0xA0 up map to
themselves, the 0x80–0x9F range maps through the table below (the five
positions the code page leaves undefined map to the C1 controls). -/
def win1252 (b : Byte) : Nat :=
  match b.val with
  | 0x80 => 0x20AC
  | 0x82 => 0x201A
  | 0x83 => 0x0192
  | 0x84 => 0x201E
  | 0x85 => 0x2026
  | 0x86 => 0x2020
  | 0x87 => 0x2021
  | 0x88 => 0x02C6
  | 0x89 => 0x2030
  | 0x8A => 0x0160
  | 0x8B => 0x2039
  | 0x8C => 0x0152
  | 0x8E => 0x017D
  | 0x91 => 0x2018
  | 0x92 => 0x2019
  | 0x93 => 0x201C
  | 0x94 => 0x201D
  | 0x95 => 0x2022
  | 0x96 => 0x2013
  | 0x97 => 0x2014
  | 0x98 => 0x02DC
  | 0x99 => 0x2122
  | 0x9A => 0x0161
  | 0x9B => 0x203A
  | 0x9C => 0x0153
  | 0x9E => 0x017E
  | 0x9F => 0x0178
  | v => v

/-- Number of UTF-8 bytes of a code point below 0x10000 (every Windows-1252
code point is below 0x10000). -/
def utf8Len (c : Nat) : Nat := if c < 0x80 then 1 else if c < 0x800 then 2 else 3

/-- Total UTF-8 byte length of a sequence of code points. -/
def utf8TotalLen (cs : List Nat) : Nat := (cs.map utf8Len).sum

/-- Behaviour of `charmap.Windows1252.NewDecoder().Transform(dst, src, _)`:
each source byte becomes one code point whose UTF-8 bytes are appended while
they fit in the remaining destination room; when a code point no longer fits
the transform stops with `ErrShortDst` (the `false` flag).  A charmap decoder
never rejects its input, so a short destination is the only failure.  The
result lists the code points written (the decoded string `dst[:nDst]`). -/
def transAux (room : Nat) (src : Bytes) : List Nat × Bool :=
  match src with
  | [] => ([], true)
  | b :: rest =>
    let c := win1252 b
    if utf8Len c ≤ room then
      let r := transAux (room - utf8Len c) rest
      (c :: r.1, r.2)
    else
      ([], false)

/-- Model of `strings.Split(s, "\x00")` on a string viewed as its list of
code points (the null separator is a single byte that never occurs inside a
multi-byte UTF-8 sequence, so byte-level and code-point-level splitting
agree). -/
def splitOnZero (s : List Nat) : List (List Nat) :=
  match s with
  | [] => [[]]
  | c :: rest =>
    if c = 0 then
      [] :: splitOnZero rest
    else
      match splitOnZero rest with
      | g :: gs => (c :: g) :: gs
      | [] => [[c]]

/-- Record type of the `info` block (struct Info). -/
structure Info where
  FontSize : Int
  BitField : Nat
  CharSet : Nat
  StretchH : Nat
  Aa : Nat
  PaddingUp : Nat
  PaddingRight : Nat
  PaddingDown : Nat
  PaddingLeft : Nat
  SpacingHoriz : Nat
  SpacingVert : Nat
  Outline : Nat
  /-- FontName: the transcoded name as a list of Unicode code points. -/
  FontName : List Nat
deriving DecidableEq, Repr

/-- Embedding of `(*Info).fromBinary`: thirteen fixed fields at offsets
0–13 (each read panics when out of bounds, so any span shorter than 14
bytes panics), then the remainder `b[14:]` is transcoded into the font name
through a buffer of `(len(b)-14)*5/2` bytes. -/
def Info.fromBinary (b : Bytes) : GoResult Info :=
  if b.length < 14 then .panic
  else
    let r := transAux (((b.length - 14) * 5) / 2) (b.drop 14)
    if r.2 then
      .ok
        { FontSize := toInt16 (le16 (byteAt b 0) (byteAt b 1))
          BitField := (byteAt b 2).val
          CharSet := (byteAt b 3).val
          StretchH := le16 (byteAt b 4) (byteAt b 5)
          Aa := (byteAt b 6).val
          PaddingUp := (byteAt b 7).val
          PaddingRight := (byteAt b 8).val
          PaddingDown := (byteAt b 9).val
          PaddingLeft := (byteAt b 10).val
          SpacingHoriz := (byteAt b 11).val
          SpacingVert := (byteAt b 12).val
          Outline := (byteAt b 13).val
          FontName := r.1 }
    else
      .error .infoFontName

/-- Record type of the `common` block (struct Common). -/
structure Common where
  LineHeight : Nat
  Base : Nat
  ScaleW : Nat
  ScaleH : Nat
  Pages : Nat
  BitField : Nat
  AlphaChnl : Nat
  RedChnl : Nat
  GreenChnl : Nat
  BlueChnl : Nat
deriving DecidableEq, Repr

/-- Embedding of `(*Common).fromBinary`: ten fields at offsets 0–14; the
read of offset 14 panics when the span is shorter than 15 bytes. -/
def Common.fromBinary (b : Bytes) : GoResult Common :=
  if b.length < 15 then .panic
  else
    .ok
      { LineHeight := le16 (byteAt b 0) (byteAt b 1)
        Base := le16 (byteAt b 2) (byteAt b 3)
        ScaleW := le16 (byteAt b 4) (byteAt b 5)
        ScaleH := le16 (byteAt b 6) (byteAt b 7)
        Pages := le16 (byteAt b 8) (byteAt b 9)
        BitField := (byteAt b 10).val
        AlphaChnl := (byteAt b 11).val
        RedChnl := (byteAt b 12).val
        GreenChnl := (byteAt b 13).val
        BlueChnl := (byteAt b 14).val }

/-- Record type of one glyph (struct Char). -/
structure Char where
  Id : Nat
  X : Nat
  Y : Nat
  Width : Nat
  Height : Nat
  Xoffset : Int
  Yoffset : Int
  Xadvance : Int
  Page : Nat
  Chnl : Nat
deriving DecidableEq, Repr, Inhabited

/-- Embedding of `(*Char).fromBinary`: a 20-byte record; the offsets
12–17 carry signed fields converted through `int16(...)`. -/
def Char.fromBinary (b : Bytes) : GoResult Char :=
  if b.length < 20 then .panic
  else
    .ok
      { Id := le32 (byteAt b 0) (byteAt b 1) (byteAt b 2) (byteAt b 3)
        X := le16 (byteAt b 4) (byteAt b 5)
        Y := le16 (byteAt b 6) (byteAt b 7)
        Width := le16 (byteAt b 8) (byteAt b 9)
        Height := le16 (byteAt b 10) (byteAt b 11)
        Xoffset := toInt16 (le16 (byteAt b 12) (byteAt b 13))
        Yoffset := toInt16 (le16 (byteAt b 14) (byteAt b 15))
        Xadvance := toInt16 (le16 (byteAt b 16) (byteAt b 17))
        Page := (byteAt b 18).val
        Chnl := (byteAt b 19).val }

/-- Record type of one kerning pair (struct KerningPair).  The source
declares `Amount uint16`, so the embedded field is an unsigned value. -/
structure KerningPair where
  First : Nat
  Second : Nat
  Amount : Nat
deriving DecidableEq, Repr, Inhabited

/-- Embedding of `(*KerningPair).fromBinary`: a 10-byte record; `Amount`
is stored as the raw little-endian `uint16` value with no `int16`
conversion (unlike the signed fields of `Char.fromBinary`). -/
def KerningPair.fromBinary (b : Bytes) : GoResult KerningPair :=
  if b.length < 10 then .panic
  else
    .ok
      { First := le32 (byteAt b 0) (byteAt b 1) (byteAt b 2) (byteAt b 3)
        Second := le32 (byteAt b 4) (byteAt b 5) (byteAt b 6) (byteAt b 7)
        Amount := le16 (byteAt b 8) (byteAt b 9) }

/-- Document type (struct Font). -/
structure Font where
  Info : Option Info
  Common : Option Common
  Pages : List (List Nat)
  Chars : List Char
  KerningPairs : List KerningPair
deriving DecidableEq, Repr

/-- The zero value `&Font{}` produced by `NewFont`. -/
def emptyFont : Font :=
  { Info := none, Common := none, Pages := [], Chars := [], KerningPairs := [] }

/-- Fixed-size record array decoding shared by the Chars and KerningPairs
arms: record `i` is decoded from the Go sub-slice
`blockData[i*size : i*size+size]`, a decode error is wrapped with the
record index, and a panic propagates unwrapped. -/
def decodeRecords {α : Type} (dec : Bytes → GoResult α) (wrap : Nat → GoError → GoError)
    (size : Nat) (data : Bytes) (i n : Nat) : GoResult (List α) :=
  match n with
  | 0 => .ok []
  | m + 1 =>
    match goSlice data (i * size) (i * size + size) with
    | .ok span =>
      match dec span with
      | .ok r =>
        match decodeRecords dec wrap size data (i + 1) m with
        | .ok rs => .ok (r :: rs)
        | .error e => .error e
        | .panic => .panic
      | .error e => .error (wrap i e)
      | .panic => .panic
    | _ => .panic

/-- Pages arm of the dispatcher: transcode the whole payload through a
buffer of `blockLenght*5/2` bytes (uint32 arithmetic), split the resulting
string on the null character and drop the final element. -/
def decodePages (L : Nat) (blockData : Bytes) : GoResult (List (List Nat)) :=
  let r := transAux ((L * 5) % 4294967296 / 2) blockData
  if r.2 then .ok (splitOnZero r.1).dropLast else .error .pagesText

/-- Switch statement of `Font.FromBuffer` on the block tag: the five known
tags decode the payload and assign the corresponding field of the font
(assignment, not append); any other tag falls through leaving the font
unchanged. -/
def dispatch (f : Font) (blockId : Byte) (L : Nat) (blockData : Bytes) : GoResult Font :=
  if blockId.val = 1 then
    match Info.fromBinary blockData with
    | .ok info => .ok { f with Info := some info }
    | .error e => .error (.infoBlock e)
    | .panic => .panic
  else if blockId.val = 2 then
    match Common.fromBinary blockData with
    | .ok c => .ok { f with Common := some c }
    | .error e => .error (.commonBlock e)
    | .panic => .panic
  else if blockId.val = 3 then
    match decodePages L blockData with
    | .ok ps => .ok { f with Pages := ps }
    | .error e => .error e
    | .panic => .panic
  else if blockId.val = 4 then
    match decodeRecords Char.fromBinary GoError.charAt 20 blockData 0 (L / 20) with
    | .ok cs => .ok { f with Chars := cs }
    | .error e => .error e
    | .panic => .panic
  else if blockId.val = 5 then
    match decodeRecords KerningPair.fromBinary GoError.kerningAt 10 blockData 0 (L / 10) with
    | .ok ks => .ok { f with KerningPairs := ks }
    | .error e => .error e
    | .panic => .panic
  else .ok f

/-- Value `binary.LittleEndian.Uint32(floatBuffer[1:5])` of the declared
block length read by the loop. -/
def blockLen (buf : Bytes) : Nat :=
  le32 (byteAt buf 1) (byteAt buf 2) (byteAt buf 3) (byteAt buf 4)

/-- Upper bound `5+blockLenght` of the payload slice, computed in uint32
arithmetic as in the Go expression. -/
def blockEnd (buf : Bytes) : Nat := (5 + blockLen buf) % 4294967296

/-- One unfolding layer of the block loop of `Font.FromBuffer`, structural
in a fuel argument so that the function evaluates by kernel reduction.
While more than 4 bytes remain, read the tag byte and the little-endian
uint32 length, slice the payload `floatBuffer[5 : 5+blockLenght]` (slicing
past the end of the buffer panics), dispatch, and advance past the block.
Fewer than 5 remaining bytes end the loop successfully.  Each iteration
consumes at least 5 bytes, so a fuel of `buf.length` never runs out: the
fuel-zero fallback is reached only with the empty buffer, where the loop
also ends with `.ok f` (lemma `processBlocksAux_irrel` makes the fuel
irrelevance precise). -/
def processBlocksAux (f : Font) (buf : Bytes) : Nat → GoResult Font
  | 0 => .ok f
  | fuel + 1 =>
    if 4 < buf.length then
      if 5 ≤ blockEnd buf ∧ blockEnd buf ≤ buf.length then
        match dispatch f (byteAt buf 0) (blockLen buf)
            ((buf.drop 5).take (blockEnd buf - 5)) with
        | .ok f' => processBlocksAux f' (buf.drop (blockEnd buf)) fuel
        | .error e => .error e
        | .panic => .panic
      else .panic
    else .ok f

/-- Main block loop of `Font.FromBuffer` over the remaining stream
`floatBuffer`. -/
def processBlocks (f : Font) (buf : Bytes) : GoResult Font :=
  processBlocksAux f buf buf.length

/-- Embedding of `(*Font).FromBuffer` on a fresh font (as called by
`NewFontFromBuf`): the magic bytes are compared left to right with Go's
short-circuit `||`, the invalid-identifier message slices `b[:3]`, the
unsupported-version message reads `b[4]`, and each of those accesses panics
when out of bounds; with a valid header the block loop runs on `b[4:]`. -/
def FromBuffer (b : Bytes) : GoResult Font :=
  if b.length = 0 then .panic
  else if byteAt b 0 ≠ 66 then
    (if b.length < 3 then .panic else .error (.invalidIdentifier (b.take 3)))
  else if b.length < 2 then .panic
  else if byteAt b 1 ≠ 77 then
    (if b.length < 3 then .panic else .error (.invalidIdentifier (b.take 3)))
  else if b.length < 3 then .panic
  else if byteAt b 2 ≠ 70 then .error (.invalidIdentifier (b.take 3))
  else if b.length < 4 then .panic
  else if byteAt b 3 ≠ 3 then
    (if b.length < 5 then .panic else .error (.unsupportedVersion (byteAt b 4)))
  else processBlocks emptyFont (b.drop 4)

/-- Observer: whether a decode outcome is the unsupported-version error. -/
def isUnsupportedVersionError (r : GoResult Font) : Bool :=
  match r with
  | .error (.unsupportedVersion _) => true
  | _ => false

/-- Observer: whether a decode outcome is any formatted error (as opposed
to a success or a runtime panic). -/
def isFormatError (r : GoResult Font) : Bool :=
  match r with
  | .error _ => true
  | _ => false

/-- Observer: the glyph identifiers of the decoded chars sequence (empty
when decoding did not succeed). -/
def resultCharIds (r : GoResult Font) : List Nat :=
  match r with
  | .ok f => f.Chars.map (fun c => c.Id)
  | _ => []

/-! ### Lemmas about the block loop -/

/-- The loop result does not depend on the fuel once the fuel covers the
buffer length: every iteration consumes at least 5 bytes. -/
theorem processBlocksAux_irrel (n : Nat) : ∀ (m : Nat) (f : Font) (buf : Bytes),
    buf.length ≤ n → buf.length ≤ m →
    processBlocksAux f buf n = processBlocksAux f buf m := by
  induction n with
  | zero =>
    intro m f buf hn _
    have hb : buf = [] := List.length_eq_zero.mp (Nat.le_zero.mp hn)
    subst hb
    cases m with
    | zero => rfl
    | succ m => simp [processBlocksAux]
  | succ n ih =>
    intro m f buf hn hm
    cases m with
    | zero =>
      have hb : buf = [] := List.length_eq_zero.mp (Nat.le_zero.mp hm)
      subst hb
      simp [processBlocksAux]
    | succ m =>
      simp only [processBlocksAux]
      by_cases h4 : 4 < buf.length
      · simp only [if_pos h4]
        by_cases hok : 5 ≤ blockEnd buf ∧ blockEnd buf ≤ buf.length
        · simp only [if_pos hok]
          cases hd : dispatch f (byteAt buf 0) (blockLen buf)
              ((buf.drop 5).take (blockEnd buf - 5)) with
          | ok f' =>
            have hlen : (buf.drop (blockEnd buf)).length = buf.length - blockEnd buf :=
              List.length_drop _ _
            exact ih m f' (buf.drop (blockEnd buf)) (by omega) (by omega)
          | error e => rfl
          | panic => rfl
        · simp only [if_neg hok]
      · simp only [if_neg h4]

/-- The loop leaves the empty stream immediately. -/
theorem processBlocks_nil (f : Font) : processBlocks f [] = .ok f := rfl

/-- Fewer than 5 remaining bytes end the loop successfully, ignoring the
trailing bytes. -/
theorem processBlocks_small (f : Font) (buf : Bytes) (h : buf.length ≤ 4) :
    processBlocks f buf = .ok f := by
  unfold processBlocks
  cases hb : buf.length with
  | zero => rfl
  | succ n =>
    simp only [processBlocksAux]
    rw [if_neg (by omega)]

/-- One successful step of the loop: with more than 4 bytes remaining, a
payload slice inside the buffer and a successful dispatch, the loop
continues past the block. -/
theorem processBlocks_step (f f' : Font) (buf : Bytes) (h4 : 4 < buf.length)
    (h5 : 5 ≤ blockEnd buf) (hle : blockEnd buf ≤ buf.length)
    (hd : dispatch f (byteAt buf 0) (blockLen buf)
      ((buf.drop 5).take (blockEnd buf - 5)) = .ok f') :
    processBlocks f buf = processBlocks f' (buf.drop (blockEnd buf)) := by
  unfold processBlocks
  cases hb : buf.length with
  | zero => omega
  | succ n =>
    simp only [processBlocksAux, if_pos h4, if_pos (And.intro h5 hle), hd]
    have hlen : (buf.drop (blockEnd buf)).length = buf.length - blockEnd buf :=
      List.length_drop _ _
    exact processBlocksAux_irrel n _ f' _ (by omega) le_rfl

/-- One block written as tag, four length bytes and a payload of exactly
the declared length: a successful dispatch lets the loop continue on the
rest of the stream. -/
theorem processBlocks_cons_block (f f' : Font) (t l0 l1 l2 l3 : Byte)
    (payload rest : Bytes)
    (hlen : payload.length = le32 l0 l1 l2 l3)
    (hsmall : le32 l0 l1 l2 l3 + 5 < 4294967296)
    (hd : dispatch f t (le32 l0 l1 l2 l3) payload = .ok f') :
    processBlocks f (t :: l0 :: l1 :: l2 :: l3 :: (payload ++ rest)) =
      processBlocks f' rest := by
  have hbl : blockLen (t :: l0 :: l1 :: l2 :: l3 :: (payload ++ rest)) = le32 l0 l1 l2 l3 := by
    simp [blockLen, byteAt]
  have hbe : blockEnd (t :: l0 :: l1 :: l2 :: l3 :: (payload ++ rest)) = 5 + le32 l0 l1 l2 l3 := by
    rw [blockEnd, hbl]
    exact Nat.mod_eq_of_lt (by omega)
  have hdrop : (t :: l0 :: l1 :: l2 :: l3 :: (payload ++ rest)).drop (5 + le32 l0 l1 l2 l3) = rest := by
    have hsplit : t :: l0 :: l1 :: l2 :: l3 :: (payload ++ rest) =
        ([t, l0, l1, l2, l3] ++ payload) ++ rest := by simp
    rw [hsplit]
    exact List.drop_left' (by simp [hlen]; omega)
  have hstep := processBlocks_step f f' (t :: l0 :: l1 :: l2 :: l3 :: (payload ++ rest))
    (by simp)
    (by rw [hbe]; omega)
    (by rw [hbe]; simp; omega)
    (by
      rw [hbe, hbl]
      show dispatch f t (le32 l0 l1 l2 l3)
        ((payload ++ rest).take (5 + le32 l0 l1 l2 l3 - 5)) = .ok f'
      have h5 : 5 + le32 l0 l1 l2 l3 - 5 = le32 l0 l1 l2 l3 := by omega
      rw [h5, List.take_left' hlen]
      exact hd)
  rw [hbe, hdrop] at hstep
  exact hstep

/-- With the valid header `BMF` version 3, `FromBuffer` runs the block
loop on the remainder of the buffer starting from the empty font. -/
theorem fromBuffer_header (tail : Bytes) :
    FromBuffer (66 :: 77 :: 70 :: 3 :: tail) = processBlocks emptyFont tail := by
  simp [FromBuffer, byteAt]
  rw [if_neg (by omega), if_neg (by omega), if_neg (by omega)]

/-! ### Lemmas about the transcoder and page splitting -/

/-- Every code point costs at least one UTF-8 byte. -/
theorem one_le_utf8Len (c : Nat) : 1 ≤ utf8Len c := by
  unfold utf8Len
  split_ifs <;> omega

/-- A transcoded text is at least as long in UTF-8 bytes as it has code
points. -/
theorem length_le_utf8TotalLen (cs : List Nat) : cs.length ≤ utf8TotalLen cs := by
  induction cs with
  | nil => simp [utf8TotalLen]
  | cons c cs ih =>
    have h1 := one_le_utf8Len c
    simp only [utf8TotalLen, List.map_cons, List.sum_cons, List.length_cons] at *
    omega

/-- When the full transcoded text fits the destination buffer, the
transform consumes every source byte, writes exactly the transcoded code
points, and reports success. -/
theorem transAux_complete (src : Bytes) : ∀ room,
    utf8TotalLen (src.map win1252) ≤ room →
    transAux room src = (src.map win1252, true) := by
  induction src with
  | nil => intro room _; rfl
  | cons b rest ih =>
    intro room h
    simp only [utf8TotalLen, List.map_cons, List.sum_cons] at h
    have hsum : utf8TotalLen (rest.map win1252) ≤ room - utf8Len (win1252 b) := by
      simp only [utf8TotalLen]
      omega
    rw [transAux]
    simp only [if_pos (show utf8Len (win1252 b) ≤ room by omega)]
    rw [ih _ hsum]
    simp

/-- Splitting always yields at least one segment. -/
theorem splitOnZero_ne_nil (s : List Nat) : splitOnZero s ≠ [] := by
  cases s with
  | nil => simp [splitOnZero]
  | cons c rest =>
    rw [splitOnZero]
    split_ifs
    · simp
    · cases h : splitOnZero rest <;> simp

/-- A separator-free segment prepended to a string lands entirely in the
first segment of the split. -/
theorem splitOnZero_prepend (nm : List Nat) (h : (0 : Nat) ∉ nm) :
    ∀ (s g : List Nat) (gs : List (List Nat)), splitOnZero s = g :: gs →
      splitOnZero (nm ++ s) = (nm ++ g) :: gs := by
  induction nm with
  | nil => intro s g gs hs; simpa using hs
  | cons c nm ih =>
    intro s g gs hs
    have hc : c ≠ 0 := by
      intro e
      exact h (by simp [e])
    have hnm : (0 : Nat) ∉ nm := fun e => h (List.mem_cons_of_mem _ e)
    show splitOnZero (c :: (nm ++ s)) = ((c :: nm) ++ g) :: gs
    rw [splitOnZero, if_neg hc, ih hnm s g gs hs]
    rfl

/-- Splitting the concatenation of terminator-ended names recovers the
names followed by one empty trailing segment. -/
theorem splitOnZero_terminated (names : List (List Nat))
    (h : ∀ nm ∈ names, (0 : Nat) ∉ nm) :
    splitOnZero ((names.map (fun nm => nm ++ [0])).flatten) = names ++ [[]] := by
  induction names with
  | nil => rfl
  | cons nm names ih =>
    have hnm : (0 : Nat) ∉ nm := h nm (by simp)
    have hrest : ∀ x ∈ names, (0 : Nat) ∉ x := fun x hx => h x (by simp [hx])
    simp only [List.map_cons, List.flatten_cons]
    have hassoc : (nm ++ [0]) ++ (names.map (fun nm => nm ++ [0])).flatten =
        nm ++ (0 :: (names.map (fun nm => nm ++ [0])).flatten) := by simp
    rw [hassoc]
    have hz : splitOnZero (0 :: (names.map (fun nm => nm ++ [0])).flatten) =
        [] :: (names ++ [[]]) := by
      rw [splitOnZero, if_pos rfl, ih hrest]
    rw [splitOnZero_prepend nm hnm _ _ _ hz]
    simp

/-! ### Lemmas about fixed-size record arrays and the dispatcher -/

/-- When the record array lies inside the payload and the per-record
decoder accepts every span of the record size, the array decoder returns
one record per sub-slice, in order. -/
theorem decodeRecords_ok {α : Type} [Inhabited α] (dec : Bytes → GoResult α)
    (wrap : Nat → GoError → GoError) (size : Nat)
    (hdec : ∀ span : Bytes, span.length = size → ∃ r, dec span = .ok r)
    (data : Bytes) :
    ∀ (n i : Nat), i * size + n * size ≤ data.length →
      ∃ rs : List α, decodeRecords dec wrap size data i n = .ok rs ∧ rs.length = n ∧
        ∀ j, j < n → dec ((data.drop ((i + j) * size)).take size) = .ok (rs.getD j default) := by
  intro n
  induction n with
  | zero =>
    intro i _
    exact ⟨[], rfl, rfl, fun j hj => absurd hj (by omega)⟩
  | succ m ih =>
    intro i hbound
    have hms : (m + 1) * size = m * size + size := by ring
    have hin : i * size + size ≤ data.length := by omega
    have hgs : goSlice data (i * size) (i * size + size) =
        .ok ((data.drop (i * size)).take size) := by
      rw [goSlice, if_pos (by omega)]
      rw [Nat.add_sub_cancel_left]
    have hspanlen : ((data.drop (i * size)).take size).length = size := by
      simp only [List.length_take, List.length_drop]
      omega
    obtain ⟨r, hr⟩ := hdec _ hspanlen
    obtain ⟨rs, hrs, hlen, hget⟩ := ih (i + 1)
      (by
        have h1 : (i + 1) * size = i * size + size := by ring
        omega)
    refine ⟨r :: rs, ?_, by simp [hlen], ?_⟩
    · rw [decodeRecords, hgs]
      simp only [hr, hrs]
    · intro j hj
      cases j with
      | zero => simpa using hr
      | succ k =>
        have hk := hget k (by omega)
        have harg : (i + (k + 1)) * size = (i + 1 + k) * size := by ring
        rw [harg]
        simpa using hk

/-- An unknown block tag falls through the dispatcher leaving every field
of the document unchanged. -/
theorem dispatch_unknown (f : Font) (t : Byte) (L : Nat) (data : Bytes)
    (h : t.val ∉ ([1, 2, 3, 4, 5] : List Nat)) :
    dispatch f t L data = .ok f := by
  simp only [List.mem_cons, List.not_mem_nil, or_false, not_or] at h
  obtain ⟨h1, h2, h3, h4, h5⟩ := h
  rw [dispatch, if_neg h1, if_neg h2, if_neg h3, if_neg h4, if_neg h5]

/-- The Chars arm assigns to the chars field the records decoded from the
consecutive 20-byte sub-slices, one per 20 declared bytes. -/
theorem dispatch_chars (f : Font) (L : Nat) (data : Bytes) (hdata : L ≤ data.length) :
    ∃ cs : List Char, dispatch f 4 L data = .ok { f with Chars := cs } ∧
      cs.length = L / 20 ∧
      ∀ i, i < L / 20 →
        Char.fromBinary ((data.drop (i * 20)).take 20) = .ok (cs.getD i default) := by
  have hdec : ∀ span : Bytes, span.length = 20 → ∃ r, Char.fromBinary span = .ok r := by
    intro span hspan
    rw [Char.fromBinary, if_neg (by omega)]
    exact ⟨_, rfl⟩
  obtain ⟨cs, hcs, hlen, hget⟩ := decodeRecords_ok Char.fromBinary GoError.charAt 20 hdec data
    (L / 20) 0 (by simpa using le_trans (Nat.div_mul_le_self L 20) hdata)
  refine ⟨cs, ?_, hlen, by simpa using hget⟩
  rw [dispatch]
  rw [if_neg (by decide), if_neg (by decide), if_neg (by decide), if_pos (by decide)]
  rw [hcs]

/-- The KerningPairs arm assigns the records decoded from the consecutive
10-byte sub-slices, one per 10 declared bytes. -/
theorem dispatch_kerning (f : Font) (L : Nat) (data : Bytes) (hdata : L ≤ data.length) :
    ∃ ks : List KerningPair, dispatch f 5 L data = .ok { f with KerningPairs := ks } ∧
      ks.length = L / 10 ∧
      ∀ i, i < L / 10 →
        KerningPair.fromBinary ((data.drop (i * 10)).take 10) = .ok (ks.getD i default) := by
  have hdec : ∀ span : Bytes, span.length = 10 → ∃ r, KerningPair.fromBinary span = .ok r := by
    intro span hspan
    rw [KerningPair.fromBinary, if_neg (by omega)]
    exact ⟨_, rfl⟩
  obtain ⟨ks, hks, hlen, hget⟩ := decodeRecords_ok KerningPair.fromBinary GoError.kerningAt 10 hdec
    data (L / 10) 0 (by simpa using le_trans (Nat.div_mul_le_self L 10) hdata)
  refine ⟨ks, ?_, hlen, by simpa using hget⟩
  rw [dispatch]
  rw [if_neg (by decide), if_neg (by decide), if_neg (by decide), if_neg (by decide),
    if_pos (by decide)]
  rw [hks]

/-- The Pages arm under a successfully fitting transform: the pages field
becomes the transcoded text split on the null character without its final
empty segment. -/
theorem dispatch_pages (f : Font) (L : Nat) (data : Bytes)
    (hfit : utf8TotalLen (data.map win1252) ≤ (L * 5) % 4294967296 / 2) :
    dispatch f 3 L data =
      .ok { f with Pages := (splitOnZero (data.map win1252)).dropLast } := by
  rw [dispatch]
  rw [if_neg (by decide), if_neg (by decide), if_pos (by decide)]
  rw [decodePages, transAux_complete data _ hfit]
  simp

/-- Invalid magic on a buffer of at least 3 bytes: the error message can
slice `b[:3]`, so a typed error is returned. -/
theorem fromBuffer_bad_magic (x0 x1 x2 : Byte) (rest : Bytes)
    (h : [x0, x1, x2] ≠ ([66, 77, 70] : Bytes)) :
    FromBuffer (x0 :: x1 :: x2 :: rest) = .error (.invalidIdentifier [x0, x1, x2]) := by
  have htake : (x0 :: x1 :: x2 :: rest).take 3 = [x0, x1, x2] := rfl
  by_cases h0 : x0 = 66
  · subst h0
    by_cases h1 : x1 = 77
    · subst h1
      by_cases h2 : x2 = 70
      · exact absurd (by rw [h2]) h
      · simp [FromBuffer, byteAt, h2]
        try split_ifs <;> first | rfl | omega
    · simp [FromBuffer, byteAt, h1]
      try split_ifs <;> first | rfl | omega
  · simp [FromBuffer, byteAt, h0]

/-- Wrong version on a buffer of at least 5 bytes: the error message can
read `b[4]`, so a typed error carrying that byte is returned. -/
theorem fromBuffer_bad_version (v w : Byte) (rest : Bytes) (hv : v ≠ 3) :
    FromBuffer (66 :: 77 :: 70 :: v :: w :: rest) = .error (.unsupportedVersion w) := by
  simp [FromBuffer, byteAt, hv]
  try split_ifs <;> first | rfl | omega

/-- Transcoded text of bytes that all decode to at most 2 UTF-8 bytes is
at most twice as long as the input. -/
theorem utf8TotalLen_le_two_mul (src : Bytes)
    (h : ∀ x ∈ src, utf8Len (win1252 x) ≤ 2) :
    utf8TotalLen (src.map win1252) ≤ 2 * src.length := by
  induction src with
  | nil => simp [utf8TotalLen]
  | cons b rest ih =>
    have hb := h b (by simp)
    have hr := ih (fun x hx => h x (by simp [hx]))
    simp only [utf8TotalLen, List.map_cons, List.sum_cons, List.length_cons] at *
    omega

/-- The Chars arm ignores the previously accumulated chars sequence: its
result is the same from any prior value of the field (assignment, not
append). -/
theorem dispatch_chars_blind (f : Font) (c : List Char) (L : Nat) (data : Bytes) :
    dispatch { f with Chars := c } 4 L data = dispatch f 4 L data := by
  rw [dispatch, dispatch]
  cases decodeRecords Char.fromBinary GoError.charAt 20 data 0 (L / 20) <;> rfl

/-- The KerningPairs arm ignores the previously accumulated sequence. -/
theorem dispatch_kerning_blind (f : Font) (k : List KerningPair) (L : Nat) (data : Bytes) :
    dispatch { f with KerningPairs := k } 5 L data = dispatch f 5 L data := by
  rw [dispatch, dispatch]
  cases decodeRecords KerningPair.fromBinary GoError.kerningAt 10 data 0 (L / 10) <;> rfl

/-- The Pages arm ignores the previously accumulated pages sequence. -/
theorem dispatch_pages_blind (f : Font) (p : List (List Nat)) (L : Nat) (data : Bytes) :
    dispatch { f with Pages := p } 3 L data = dispatch f 3 L data := by
  rw [dispatch, dispatch]
  cases decodePages L data <;> rfl

/-- Two starting fonts on which the dispatcher agrees for the first tag of
the stream lead the loop to the same outcome. -/
theorem processBlocks_field_blind (f g : Font) (buf : Bytes) (h4 : 4 < buf.length)
    (hdisp : ∀ L data, dispatch g (byteAt buf 0) L data = dispatch f (byteAt buf 0) L data) :
    processBlocks g buf = processBlocks f buf := by
  unfold processBlocks
  cases hb : buf.length with
  | zero => omega
  | succ n =>
    simp only [processBlocksAux, if_pos h4]
    by_cases hok : 5 ≤ blockEnd buf ∧ blockEnd buf ≤ buf.length
    · simp only [if_pos hok, hdisp]
    · simp only [if_neg hok]

/-! ### Claim theorems -/

/-- C1: the claim says that a declared block length extending past the end
of the buffer, or an Info payload under 14 bytes, or a Common payload
under 15 bytes, yields a typed TruncatedInput failure and never an
out-of-bounds access.  The code has no such check: at each of these inputs
the decode performs the out-of-bounds slice or read and panics (it has no
truncation error at all), so the claim describes the intended behaviour
and the code crashes instead.  The three conjuncts evaluate the decoder
at a block declaring 10 payload bytes with none present, a Common block
with a 14-byte payload, and an Info block with a 13-byte payload. -/
theorem c1_truncation_panics :
    FromBuffer [66, 77, 70, 3, 99, 10, 0, 0, 0] = .panic ∧
    FromBuffer ([66, 77, 70, 3, 2, 14, 0, 0, 0] ++ List.replicate 14 0) = .panic ∧
    FromBuffer ([66, 77, 70, 3, 1, 13, 0, 0, 0] ++ List.replicate 13 0) = .panic := by
  decide

/-- C2: the claim says the kerning amount is a signed 16-bit field decoded
by two's-complement reinterpretation, so bytes FF FF give -1.  The struct
field is `Amount uint16` and the code stores the raw little-endian value
with no `int16` conversion (unlike the signed Char fields), so FF FF
decodes to 65535; the two glyph identifiers are decoded from bytes [0:4)
and [4:8) as claimed.  `toInt16 65535 = -1` records what the claimed
reinterpretation would have produced, and 65535 is not that value. -/
theorem c2_kerning_amount_raw :
    KerningPair.fromBinary [1, 2, 3, 4, 5, 6, 7, 8, 255, 255] =
      .ok { First := 67305985, Second := 134678021, Amount := 65535 } ∧
    toInt16 65535 = -1 ∧ ((65535 : Int) ≠ -1) := by
  decide

/-- C3 counterexample: a Pages payload of four euro-sign bytes and a
terminator transcodes to exactly one name followed by the terminator
(second conjunct), yet the decoder fails with the pages-text error instead
of producing that one name: the four 3-byte UTF-8 characters plus the
terminator need 13 output bytes and the buffer holds (5*5)/2 = 12. -/
theorem c3_counterexample :
    FromBuffer ([66, 77, 70, 3, 3, 5, 0, 0, 0] ++ [128, 128, 128, 128, 0]) =
      .error .pagesText ∧
    ([128, 128, 128, 128, 0] : Bytes).map win1252 =
      (([[8364, 8364, 8364, 8364]] : List (List Nat)).map (fun nm => nm ++ [0])).flatten := by
  decide

/-- C3 (amended): for a Pages block whose transcoded text fits the
allocated 2.5x output buffer, the decoder transcodes the entire payload
into one string, splits it on the null terminator into an ordered
sequence, drops the final empty element, and for a text of n
terminator-ended names yields exactly those n names in order. -/
theorem c3_pages_names (l0 l1 l2 l3 : Byte) (payload : Bytes)
    (names : List (List Nat))
    (hlen : payload.length = le32 l0 l1 l2 l3)
    (hnz : ∀ nm ∈ names, (0 : Nat) ∉ nm)
    (htext : payload.map win1252 = (names.map (fun nm => nm ++ [0])).flatten)
    (hfit : utf8TotalLen (payload.map win1252) ≤
      (le32 l0 l1 l2 l3 * 5) % 4294967296 / 2) :
    FromBuffer (66 :: 77 :: 70 :: 3 :: 3 :: l0 :: l1 :: l2 :: l3 :: payload) =
      .ok { emptyFont with Pages := names } := by
  have hmaplen : (payload.map win1252).length = payload.length := List.length_map _ _
  have hle := length_le_utf8TotalLen (payload.map win1252)
  have hmod : (le32 l0 l1 l2 l3 * 5) % 4294967296 < 4294967296 :=
    Nat.mod_lt _ (by norm_num)
  have hsmall : le32 l0 l1 l2 l3 + 5 < 4294967296 := by omega
  have hdisp : dispatch emptyFont 3 (le32 l0 l1 l2 l3) payload =
      .ok { emptyFont with Pages := names } := by
    rw [dispatch_pages emptyFont _ payload hfit, htext,
      splitOnZero_terminated names hnz]
    simp
  have e : (3 : Byte) :: l0 :: l1 :: l2 :: l3 :: payload =
      3 :: l0 :: l1 :: l2 :: l3 :: (payload ++ []) := by simp
  rw [fromBuffer_header, e,
    processBlocks_cons_block emptyFont _ 3 l0 l1 l2 l3 payload [] hlen hsmall hdisp]
  exact processBlocks_nil _

/-- C3 witness: a Pages block with payload "a\x00bc\x00" decodes to the
two names "a" and "bc". -/
theorem c3_witness :
    FromBuffer (66 :: 77 :: 70 :: 3 :: 3 :: 5 :: 0 :: 0 :: 0 :: [97, 0, 98, 99, 0]) =
      .ok { emptyFont with Pages := [[97], [98, 99]] } :=
  c3_pages_names 5 0 0 0 [97, 0, 98, 99, 0] [[97], [98, 99]]
    (by decide) (by decide) (by decide) (by decide)

/-- C4 counterexample: an input with two Chars blocks of one record each
(glyph ids 1 then 2) decodes to a document holding only the single record
of the second block; under the claimed append semantics it would hold the
records of both blocks in stream order, ids [1, 2]. -/
theorem c4_counterexample :
    resultCharIds (FromBuffer ([66, 77, 70, 3, 4, 20, 0, 0, 0] ++
      (1 :: List.replicate 19 0) ++ ([4, 20, 0, 0, 0] ++ (2 :: List.replicate 19 0)))) =
      [2] ∧ ([2] : List Nat) ≠ [1, 2] := by
  decide

/-- C4 (amended): the assembler does not append: a block of a
sequence-valued kind (Chars tag 4, KerningPairs tag 5, Pages tag 3) is
decoded into an assignment that replaces the previously accumulated
sequence, so the loop outcome is independent of that prior sequence and
the final document keeps only the last such block of each kind. -/
theorem c4_sequences_replaced :
    (∀ (f : Font) (c : List Char) (buf : Bytes), 4 < buf.length → byteAt buf 0 = 4 →
      processBlocks { f with Chars := c } buf = processBlocks f buf) ∧
    (∀ (f : Font) (k : List KerningPair) (buf : Bytes), 4 < buf.length → byteAt buf 0 = 5 →
      processBlocks { f with KerningPairs := k } buf = processBlocks f buf) ∧
    (∀ (f : Font) (p : List (List Nat)) (buf : Bytes), 4 < buf.length → byteAt buf 0 = 3 →
      processBlocks { f with Pages := p } buf = processBlocks f buf) := by
  refine ⟨?_, ?_, ?_⟩
  · intro f c buf h4 ht
    exact processBlocks_field_blind f _ buf h4 (fun L data => by
      rw [ht]; exact dispatch_chars_blind f c L data)
  · intro f k buf h4 ht
    exact processBlocks_field_blind f _ buf h4 (fun L data => by
      rw [ht]; exact dispatch_kerning_blind f k L data)
  · intro f p buf h4 ht
    exact processBlocks_field_blind f _ buf h4 (fun L data => by
      rw [ht]; exact dispatch_pages_blind f p L data)

/-- C4 witness: on a stream opening with an empty block of the matching
kind, a prior non-empty sequence of each kind is discarded. -/
theorem c4_witness :
    processBlocks { emptyFont with Chars := [default] } [4, 0, 0, 0, 0] =
      processBlocks emptyFont [4, 0, 0, 0, 0] ∧
    processBlocks { emptyFont with KerningPairs := [default] } [5, 0, 0, 0, 0] =
      processBlocks emptyFont [5, 0, 0, 0, 0] ∧
    processBlocks { emptyFont with Pages := [[97]] } [3, 0, 0, 0, 0] =
      processBlocks emptyFont [3, 0, 0, 0, 0] :=
  ⟨c4_sequences_replaced.1 emptyFont [default] [4, 0, 0, 0, 0] (by decide) (by decide),
   c4_sequences_replaced.2.1 emptyFont [default] [5, 0, 0, 0, 0] (by decide) (by decide),
   c4_sequences_replaced.2.2 emptyFont [[97]] [3, 0, 0, 0, 0] (by decide) (by decide)⟩

/-- C5: a Chars block of declared length L yields L/20 glyph records and
record i is decoded from the payload sub-slice at byte offset i*20;
a KerningPairs block yields L/10 records, record i from offset i*10.
The bound on the declared length keeps the uint32 computation 5+L of the
slice end from wrapping (it always holds for buffers that fit in memory). -/
theorem c5_record_counts (l0 l1 l2 l3 : Byte) (payload : Bytes)
    (hlen : payload.length = le32 l0 l1 l2 l3)
    (hsmall : le32 l0 l1 l2 l3 + 5 < 4294967296) :
    (∃ F, FromBuffer (66 :: 77 :: 70 :: 3 :: 4 :: l0 :: l1 :: l2 :: l3 :: payload) = .ok F ∧
      F.Chars.length = le32 l0 l1 l2 l3 / 20 ∧
      ∀ i, i < le32 l0 l1 l2 l3 / 20 →
        Char.fromBinary ((payload.drop (i * 20)).take 20) = .ok (F.Chars.getD i default)) ∧
    (∃ F, FromBuffer (66 :: 77 :: 70 :: 3 :: 5 :: l0 :: l1 :: l2 :: l3 :: payload) = .ok F ∧
      F.KerningPairs.length = le32 l0 l1 l2 l3 / 10 ∧
      ∀ i, i < le32 l0 l1 l2 l3 / 10 →
        KerningPair.fromBinary ((payload.drop (i * 10)).take 10) =
          .ok (F.KerningPairs.getD i default)) := by
  constructor
  · obtain ⟨cs, hd, hcnt, hget⟩ :=
      dispatch_chars emptyFont (le32 l0 l1 l2 l3) payload (le_of_eq hlen.symm)
    refine ⟨{ emptyFont with Chars := cs }, ?_, hcnt, hget⟩
    have e : (4 : Byte) :: l0 :: l1 :: l2 :: l3 :: payload =
        4 :: l0 :: l1 :: l2 :: l3 :: (payload ++ []) := by simp
    rw [fromBuffer_header, e,
      processBlocks_cons_block emptyFont _ 4 l0 l1 l2 l3 payload [] hlen hsmall hd]
    exact processBlocks_nil _
  · obtain ⟨ks, hd, hcnt, hget⟩ :=
      dispatch_kerning emptyFont (le32 l0 l1 l2 l3) payload (le_of_eq hlen.symm)
    refine ⟨{ emptyFont with KerningPairs := ks }, ?_, hcnt, hget⟩
    have e : (5 : Byte) :: l0 :: l1 :: l2 :: l3 :: payload =
        5 :: l0 :: l1 :: l2 :: l3 :: (payload ++ []) := by simp
    rw [fromBuffer_header, e,
      processBlocks_cons_block emptyFont _ 5 l0 l1 l2 l3 payload [] hlen hsmall hd]
    exact processBlocks_nil _

/-- C5 witness: blocks declaring 20 payload bytes hold one record. -/
theorem c5_witness :
    (∃ F, FromBuffer (66 :: 77 :: 70 :: 3 :: 4 :: 20 :: 0 :: 0 :: 0 ::
        List.replicate 20 1) = .ok F ∧
      F.Chars.length = le32 20 0 0 0 / 20 ∧
      ∀ i, i < le32 20 0 0 0 / 20 →
        Char.fromBinary (((List.replicate 20 (1 : Byte)).drop (i * 20)).take 20) =
          .ok (F.Chars.getD i default)) ∧
    (∃ F, FromBuffer (66 :: 77 :: 70 :: 3 :: 5 :: 20 :: 0 :: 0 :: 0 ::
        List.replicate 20 1) = .ok F ∧
      F.KerningPairs.length = le32 20 0 0 0 / 10 ∧
      ∀ i, i < le32 20 0 0 0 / 10 →
        KerningPair.fromBinary (((List.replicate 20 (1 : Byte)).drop (i * 10)).take 10) =
          .ok (F.KerningPairs.getD i default)) :=
  c5_record_counts 20 0 0 0 (List.replicate 20 1) (by decide) (by decide)

/-- C6 counterexample: the 4-byte buffer BMF with version byte 2 has
correct magic and a fourth byte other than 3, yet decode does not fail
with an UnsupportedVersion error: building that error reads index 4,
which is out of bounds, so the decode panics. -/
theorem c6_counterexample :
    FromBuffer [66, 77, 70, 2] = .panic ∧
    isUnsupportedVersionError (FromBuffer [66, 77, 70, 2]) = false := by
  decide

/-- C6 (amended): a buffer of at least 3 bytes whose first three bytes
differ from BMF yields the invalid-identifier error carrying those bytes,
and a buffer of at least 5 bytes with correct magic and fourth byte other
than 3 yields the unsupported-version error (whose payload is byte index
4, as the code formats `b[4]`); in both cases no blocks are decoded.  A
4-byte buffer with correct magic and wrong version instead panics. -/
theorem c6_header_errors :
    (∀ b : Bytes, 3 ≤ b.length → b.take 3 ≠ [66, 77, 70] →
      FromBuffer b = .error (.invalidIdentifier (b.take 3))) ∧
    (∀ b : Bytes, 5 ≤ b.length → b.take 3 = [66, 77, 70] → byteAt b 3 ≠ 3 →
      FromBuffer b = .error (.unsupportedVersion (byteAt b 4))) := by
  constructor
  · intro b hlen hm
    cases b with
    | nil => exact absurd hlen (by simp)
    | cons x0 b =>
      cases b with
      | nil => exact absurd hlen (by simp)
      | cons x1 b =>
        cases b with
        | nil => exact absurd hlen (by simp)
        | cons x2 rest => exact fromBuffer_bad_magic x0 x1 x2 rest hm
  · intro b hlen hm h3
    cases b with
    | nil => exact absurd hlen (by simp)
    | cons x0 b =>
      cases b with
      | nil => exact absurd hlen (by simp)
      | cons x1 b =>
        cases b with
        | nil => exact absurd hlen (by simp)
        | cons x2 b =>
          cases b with
          | nil => exact absurd hlen (by simp)
          | cons v b =>
            cases b with
            | nil => exact absurd hlen (by simp)
            | cons w rest =>
              have hm' : x0 = 66 ∧ x1 = 77 ∧ x2 = 70 := by
                simpa using hm
              obtain ⟨rfl, rfl, rfl⟩ := hm'
              exact fromBuffer_bad_version v w rest h3

/-- C6 witness: XYZ with version 3 yields the invalid-identifier error,
and BMF version 2 with one extra byte yields the unsupported-version
error. -/
theorem c6_witness :
    FromBuffer [88, 89, 90, 3] = .error (.invalidIdentifier [88, 89, 90]) ∧
    FromBuffer [66, 77, 70, 2, 9] = .error (.unsupportedVersion 9) :=
  ⟨c6_header_errors.1 [88, 89, 90, 3] (by decide) (by decide),
   c6_header_errors.2 [66, 77, 70, 2, 9] (by decide) (by decide) (by decide)⟩

/-- C7 counterexample: the byte 0x80 transcodes to the euro sign U+20AC,
which needs 3 UTF-8 bytes; a single such byte overflows the 2.5x buffer
(2 bytes), so both call sites fail with their encoding error even though
the conversion itself proceeds when given 3 bytes of room (third
conjunct), contradicting the claim that the 2.5x sizing is always
sufficient for convertible input. -/
theorem c7_counterexample :
    Info.fromBinary (List.replicate 14 0 ++ [128]) = .error .infoFontName ∧
    decodePages 1 [128] = .error .pagesText ∧
    transAux 3 [128] = ([8364], true) := by
  decide

/-- C7 (amended): the 2.5x output buffer is sufficient whenever every
transcoded code point occupies at most 2 UTF-8 bytes (in particular for
ASCII and Latin-1 text): then the Info font name and a Pages payload
transcode successfully; the underlying Windows-1252 conversion itself
never fails, so the only encoding failure is a short output buffer, which
inputs with 3-UTF-8-byte code points can trigger. -/
theorem c7_buffer_sizing :
    (∀ b : Bytes, 14 ≤ b.length → (∀ x ∈ b.drop 14, utf8Len (win1252 x) ≤ 2) →
      ∃ info : Info, Info.fromBinary b = .ok info ∧
        info.FontName = (b.drop 14).map win1252) ∧
    (∀ (L : Nat) (data : Bytes), data.length = L → L * 5 < 4294967296 →
      (∀ x ∈ data, utf8Len (win1252 x) ≤ 2) →
      decodePages L data = .ok ((splitOnZero (data.map win1252)).dropLast)) := by
  constructor
  · intro b hlen hx
    rw [Info.fromBinary, if_neg (by omega)]
    have hdl : (b.drop 14).length = b.length - 14 := List.length_drop _ _
    have hfit : utf8TotalLen ((b.drop 14).map win1252) ≤ ((b.length - 14) * 5) / 2 := by
      have h2 := utf8TotalLen_le_two_mul (b.drop 14) hx
      omega
    rw [transAux_complete _ _ hfit]
    exact ⟨_, rfl, rfl⟩
  · intro L data hdl hsm hx
    have hfit : utf8TotalLen (data.map win1252) ≤ (L * 5) % 4294967296 / 2 := by
      have h2 := utf8TotalLen_le_two_mul data hx
      rw [Nat.mod_eq_of_lt hsm]
      omega
    rw [decodePages, transAux_complete _ _ hfit]
    simp

set_option maxRecDepth 4096 in
/-- C7 witness: a one-letter font name and a one-letter pages payload
transcode successfully inside the 2.5x buffer. -/
theorem c7_witness :
    (∃ info : Info, Info.fromBinary (List.replicate 14 0 ++ [65]) = .ok info ∧
      info.FontName = ((List.replicate 14 (0 : Byte) ++ [65]).drop 14).map win1252) ∧
    decodePages 1 [65] = .ok ((splitOnZero (([65] : Bytes).map win1252)).dropLast) :=
  ⟨c7_buffer_sizing.1 (List.replicate 14 0 ++ [65]) (by decide) (by decide),
   c7_buffer_sizing.2 1 [65] (by decide) (by decide) (by decide)⟩

/-- C8: a block whose tag is none of 1–5 and whose declared payload is
present is consumed without error and without touching any field of the
document under construction, and the stream after it is decoded exactly
as if the block were absent (the loop state is just the font and the
remaining bytes).  The bound on the declared length keeps the uint32
computation 5+L from wrapping. -/
theorem c8_unknown_skipped (f : Font) (t l0 l1 l2 l3 : Byte) (payload rest : Bytes)
    (ht : t.val ∉ ([1, 2, 3, 4, 5] : List Nat))
    (hlen : payload.length = le32 l0 l1 l2 l3)
    (hsmall : le32 l0 l1 l2 l3 + 5 < 4294967296) :
    processBlocks f (t :: l0 :: l1 :: l2 :: l3 :: (payload ++ rest)) =
      processBlocks f rest :=
  processBlocks_cons_block f f t l0 l1 l2 l3 payload rest hlen hsmall
    (dispatch_unknown f t _ payload ht)

/-- C8 witness: a tag-99 block with a 3-byte payload placed before a
Common block leaves the decode of the remaining stream unchanged. -/
theorem c8_witness :
    processBlocks emptyFont ((99 : Byte) :: 3 :: 0 :: 0 :: 0 ::
        ([7, 7, 7] ++ ([2, 15, 0, 0, 0] ++ List.replicate 15 0))) =
      processBlocks emptyFont ([2, 15, 0, 0, 0] ++ List.replicate 15 0) :=
  c8_unknown_skipped emptyFont 99 3 0 0 0 [7, 7, 7]
    ([2, 15, 0, 0, 0] ++ List.replicate 15 0) (by decide) (by decide) (by decide)

/-- C9: the block loop stops exactly when fewer than 5 bytes remain and
then succeeds, ignoring the trailing bytes (first conjunct); every
continuing iteration advances past the 5 header bytes plus the declared
payload, consuming at least 5 bytes of the remaining stream (second
conjunct); termination itself is witnessed by `processBlocks` being a
total function of the buffer, with fuel `buf.length` shown irrelevant by
`processBlocksAux_irrel`. -/
theorem c9_loop_termination :
    (∀ (f : Font) (buf : Bytes), buf.length < 5 → processBlocks f buf = .ok f) ∧
    (∀ (f f' : Font) (buf : Bytes), 4 < buf.length → 5 ≤ blockEnd buf →
      blockEnd buf ≤ buf.length →
      dispatch f (byteAt buf 0) (blockLen buf)
        ((buf.drop 5).take (blockEnd buf - 5)) = .ok f' →
      processBlocks f buf = processBlocks f' (buf.drop (blockEnd buf)) ∧
        5 ≤ buf.length - (buf.drop (blockEnd buf)).length) := by
  constructor
  · intro f buf h
    exact processBlocks_small f buf (by omega)
  · intro f f' buf h4 h5 hle hd
    refine ⟨processBlocks_step f f' buf h4 h5 hle hd, ?_⟩
    have hdl : (buf.drop (blockEnd buf)).length = buf.length - blockEnd buf :=
      List.length_drop _ _
    omega

/-- C9 witness: a 3-byte stream ends the loop successfully, and a Common
block is consumed in one step that advances 20 bytes. -/
theorem c9_witness :
    processBlocks emptyFont [1, 2, 3] = .ok emptyFont ∧
    (processBlocks emptyFont ([2, 15, 0, 0, 0] ++ List.replicate 15 0) =
        processBlocks
          { emptyFont with Common := some (
            { LineHeight := 0, Base := 0, ScaleW := 0, ScaleH := 0, Pages := 0,
              BitField := 0, AlphaChnl := 0, RedChnl := 0, GreenChnl := 0,
              BlueChnl := 0 } : Common) }
          ((([2, 15, 0, 0, 0] ++ List.replicate 15 0 : Bytes)).drop
            (blockEnd ([2, 15, 0, 0, 0] ++ List.replicate 15 0))) ∧
      5 ≤ ([2, 15, 0, 0, 0] ++ List.replicate 15 0 : Bytes).length -
        ((([2, 15, 0, 0, 0] ++ List.replicate 15 0 : Bytes)).drop
          (blockEnd ([2, 15, 0, 0, 0] ++ List.replicate 15 0))).length) :=
  ⟨c9_loop_termination.1 emptyFont [1, 2, 3] (by decide),
   c9_loop_termination.2 emptyFont _ ([2, 15, 0, 0, 0] ++ List.replicate 15 0)
     (by decide) (by decide) (by decide) (by decide)⟩

/-- C10 counterexample: the 3-byte buffer XYZ is shorter than 4 bytes,
yet the decode returns the typed invalid-identifier error rather than
performing an out-of-bounds access: the short-circuit magic comparison
fails at the first byte and the message slice `b[:3]` is in bounds. -/
theorem c10_counterexample :
    FromBuffer [88, 89, 90] = .error (.invalidIdentifier [88, 89, 90]) ∧
    isFormatError (FromBuffer [88, 89, 90]) = true := by
  decide

/-- C10 (amended): for buffers shorter than 3 bytes the decode always
performs an out-of-bounds access and panics; a 3-byte buffer panics when
the magic matches (reading index 3) but returns the typed
invalid-identifier error when it does not; and for the 4-byte buffer BMF
with any version byte other than 3, building the version error reads
index 4 out of bounds and panics. -/
theorem c10_short_header :
    (∀ b : Bytes, b.length < 3 → FromBuffer b = .panic) ∧
    (∀ b : Bytes, b.length = 3 → b ≠ [66, 77, 70] →
      FromBuffer b = .error (.invalidIdentifier b)) ∧
    FromBuffer [66, 77, 70] = .panic ∧
    (∀ v : Byte, v ≠ 3 → FromBuffer [66, 77, 70, v] = .panic) := by
  refine ⟨?_, ?_, by decide, ?_⟩
  · intro b hb
    cases b with
    | nil => rfl
    | cons x0 b =>
      cases b with
      | nil =>
        by_cases hx : x0 = 66
        · subst hx; decide
        · simp [FromBuffer, byteAt, hx]
      | cons x1 b =>
        cases b with
        | nil =>
          by_cases hx : x0 = 66
          · subst hx
            by_cases hy : x1 = 77
            · subst hy; decide
            · simp [FromBuffer, byteAt, hy]
          · simp [FromBuffer, byteAt, hx]
        | cons x2 rest =>
          simp at hb
          omega
  · intro b hb hne
    cases b with
    | nil => simp at hb
    | cons x0 b =>
      cases b with
      | nil => simp at hb
      | cons x1 b =>
        cases b with
        | nil => simp at hb
        | cons x2 b =>
          cases b with
          | nil => exact fromBuffer_bad_magic x0 x1 x2 [] hne
          | cons x3 rest => simp at hb
  · intro v hv
    simp [FromBuffer, byteAt, hv]

/-- C10 witness: the empty buffer and the buffer BM panic; the 3-byte
buffer BMX returns the invalid-identifier error; BMF with version byte 2
panics on the out-of-bounds error-message read. -/
theorem c10_witness :
    FromBuffer ([] : Bytes) = .panic ∧
    FromBuffer [66, 77] = .panic ∧
    FromBuffer [66, 77, 88] = .error (.invalidIdentifier [66, 77, 88]) ∧
    FromBuffer [66, 77, 70, 2] = .panic :=
  ⟨c10_short_header.1 [] (by decide),
   c10_short_header.1 [66, 77] (by decide),
   c10_short_header.2.1 [66, 77, 88] (by decide) (by decide),
   c10_short_header.2.2.2 2 (by decide)⟩

end BMFont
